import Mathlib

/-!
Verification of the cp-judge local judge server.

This file shallowly embeds the server-side logic of the repository:
output normalization and comparison (`server/utils/normalize.js`), the
verdict classifier and diff generator (`server/executor/verdictEngine.js`,
diff generator module), the compiler stage (`server/executor/compiler.js`),
the execution orchestrator and its summary calculation
(`server/api/executor.js`), the process supervisor's spawn-error path
(`server/utils/timeout.js`), and the workspace naming / cleanup logic
(`server/utils/fileSystem.js`).  All embedded definitions are computable
and follow the JavaScript source line by line; theorems about them settle
the spec claims.
-/

namespace CpJudge

/-- Strings are modelled as lists of characters; all the JavaScript string
operations used by the judge are defined over this representation. -/
abbrev Str := List Char

/-! ## Normalization (`server/utils/normalize.js`, `strictNormalizeOutput`)

The source is a chain of regex replacements followed by `trim()`:

```js
return output
  .replace(/\r\n/g, '\n')          // Normalize Windows line endings
  .replace(/\r/g, '\n')            // Normalize old Mac line endings
  .replace(/[ \t]+$/gm, '')        // Remove trailing spaces per line
  .replace(/\n+$/g, '')            // Remove trailing newlines
  .trim();                          // Remove leading/trailing whitespace
```
-/

/-- The character class `[ \t]` of the per-line trailing-whitespace regex. -/
def isSpaceTab (c : Char) : Bool := c = ' ' || c = '\t'

/-- JavaScript line terminators, before which a multiline `$` matches:
LF, CR, LINE SEPARATOR and PARAGRAPH SEPARATOR. -/
def isLineTerm (c : Char) : Bool :=
  c = '\n' || c = '\r' || c = '\u2028' || c = '\u2029'

/-- The JavaScript `String.prototype.trim` whitespace set: WhiteSpace
(TAB, VT, FF, SP, NBSP, ZWNBSP and the Unicode space separators) together
with the line terminators. -/
def isJsWhitespace (c : Char) : Bool :=
  decide (c ∈ ([' ', '\t', '\n', '\r', '\x0b', '\x0c', '\u00A0', '\uFEFF',
      '\u1680', '\u2028', '\u2029', '\u202F', '\u205F', '\u3000'] : List Char)) ||
  ('\u2000' ≤ c && c ≤ '\u200A')

/-- `.replace(/\r\n/g, '\n')`: a single left-to-right pass replacing each
(non-overlapping) CR LF pair by LF, exactly as the global regex scans. -/
def replaceCrlf : Str → Str
  | '\r' :: '\n' :: rest => '\n' :: replaceCrlf rest
  | c :: rest => c :: replaceCrlf rest
  | [] => []

/-- `.replace(/\r/g, '\n')`: every remaining CR becomes LF. -/
def replaceCr (l : Str) : Str :=
  l.map fun c => if c = '\r' then '\n' else c

/-- Whether a multiline `$` matches in front of the given suffix: at end of
input or before a line terminator. -/
def atLineBreak : Str → Bool
  | [] => true
  | c :: _ => isLineTerm c

/-- `.replace(/[ \t]+$/gm, '')`: delete every space or tab that, skipping
only the spaces and tabs after it, sits in front of a line terminator or
the end of the string (a maximal `[ \t]+` run matched in front of a
multiline `$`). -/
def stripTrailWs : Str → Str
  | [] => []
  | c :: rest =>
    let r := stripTrailWs rest
    if isSpaceTab c && atLineBreak r then r else c :: r

/-- `.replace(/\n+$/g, '')`: remove the maximal run of LF characters at the
very end of the string (without the `m` flag, `$` only matches at the end
of the input in JavaScript). -/
def dropTrailNl (l : Str) : Str :=
  (l.reverse.dropWhile (fun c => c = '\n')).reverse

/-- Left half of `trim()`: drop leading JavaScript whitespace. -/
def ltrimChars (l : Str) : Str := l.dropWhile (fun c => isJsWhitespace c)

/-- Right half of `trim()`: drop trailing JavaScript whitespace. -/
def rtrimChars (l : Str) : Str :=
  (l.reverse.dropWhile (fun c => isJsWhitespace c)).reverse

/-- `trim()`. -/
def trimChars (l : Str) : Str := rtrimChars (ltrimChars l)

/-- `strictNormalizeOutput` from `server/utils/normalize.js` (the
normalization used for output comparison); the `typeof` guard is dropped
because inputs are strings by construction here. -/
def strictNormalizeOutput (l : Str) : Str :=
  trimChars (dropTrailNl (stripTrailWs (replaceCr (replaceCrlf l))))

/-- `compareOutputs` from `server/utils/normalize.js`: byte equality of the
strictly-normalized forms (the debug logging is pure output and is not
modelled). -/
def compareOutputs (actual expected : Str) : Bool :=
  strictNormalizeOutput actual = strictNormalizeOutput expected

example : strictNormalizeOutput "a  \n\nb\t\n\n\n".data = "a\n\nb".data := by decide

example : strictNormalizeOutput "10  \n\n".data = "10".data := by decide

example : compareOutputs "5\n".data "5".data = true := by decide

/-! ## Execution results (`server/utils/timeout.js`)

`executeWithTimeout` resolves (never rejects: the promise executor only
ever calls `resolve`) with an object `{stdout, stderr, exitCode, timedOut,
killed, ...}`.  `exitCode` is the `code` of the `close` event — a number,
or `null` when the child was terminated by a signal — or the sentinel `-1`
on a spawn error. -/

structure ExecutionResult where
  stdout : Str
  stderr : Str
  /-- `null` (signal termination) is `none`. -/
  exitCode : Option Int
  timedOut : Bool
  killed : Bool
  executionTime : Nat
deriving Repr, DecidableEq

/-- The observable behaviour of one spawned process, as seen by
`executeWithTimeout`'s event handlers: either the `error` event fired
(spawn failure) or the `close` event fired with the collected streams. -/
inductive ProcBehavior where
  /-- `child.on('error', ...)`: spawn failed with this message. -/
  | spawnError (msg : Str) (elapsed : Nat)
  /-- `child.on('close', (code, signal) => ...)` with the stdout/stderr
  collected so far and whether the deadline timer fired before close. -/
  | closed (stdout stderr : Str) (code : Option Int) (timedOut : Bool)
      (elapsed : Nat)

/-- `executeWithTimeout` as a total function of the process behaviour: each
constructor is mapped exactly as the corresponding handler resolves the
promise.  Totality of this function is the embedding of "the promise never
rejects and no exception escapes this boundary". -/
def executeWithTimeout : ProcBehavior → ExecutionResult
  | .spawnError msg elapsed =>
    { stdout := []
      stderr := "Process spawn error: ".data ++ msg
      exitCode := some (-1)
      timedOut := false
      killed := false
      executionTime := elapsed }
  | .closed stdout stderr code timedOut elapsed =>
    { stdout := stdout
      stderr := stderr
      exitCode := code
      timedOut := timedOut
      killed := timedOut
      executionTime := elapsed }

/-! ## Verdict engine (`server/executor/verdictEngine.js`) -/

inductive Verdict where
  | AC | WA | TLE | RE | CE
deriving Repr, DecidableEq

/-- Boolean prefix test on character lists. -/
def isPrefixB : Str → Str → Bool
  | [], _ => true
  | _ :: _, [] => false
  | a :: pat, b :: l => a = b && isPrefixB pat l

/-- Boolean substring test on character lists. -/
def isSubstrB (pat : Str) : Str → Bool
  | [] => isPrefixB pat []
  | c :: rest => isPrefixB pat (c :: rest) || isSubstrB pat rest

/-- The regex `/error|exception|segmentation fault|core dumped/i` applied
to stderr: a case-insensitive substring test for any of the four
alternatives. -/
def hasRuntimeFaultPattern (stderr : Str) : Bool :=
  let lower := stderr.map Char.toLower
  isSubstrB "error".data lower || isSubstrB "exception".data lower ||
  isSubstrB "segmentation fault".data lower || isSubstrB "core dumped".data lower

/-- The verdict-information object returned by `determineVerdict`.  The
source never sets a `diff` property on it, so reading `verdict.diff`
yields `undefined`; the field is therefore an `Option` that is `none` in
every branch. -/
structure VerdictInfo where
  verdict : Verdict
  actualOutput : Str
  expectedOutput : Str
  stderr : Str
  diff : Option Unit
deriving Repr, DecidableEq

/-- `determineVerdict(executionResult, expectedOutput)`: the classifier
cascade of `verdictEngine.js` lines 34–95, in source order:
timeout, then non-null non-zero exit code, then non-blank stderr matching
the runtime-fault regex, then output comparison. -/
def determineVerdict (r : ExecutionResult) (expectedOutput : Str) : VerdictInfo :=
  if r.timedOut then
    { verdict := .TLE, actualOutput := r.stdout, expectedOutput, stderr := r.stderr,
      diff := none }
  else if r.exitCode ≠ some 0 ∧ r.exitCode ≠ none then
    { verdict := .RE, actualOutput := r.stdout, expectedOutput, stderr := r.stderr,
      diff := none }
  else if r.stderr ≠ [] ∧ (trimChars r.stderr).length > 0 ∧
      hasRuntimeFaultPattern r.stderr then
    { verdict := .RE, actualOutput := r.stdout, expectedOutput, stderr := r.stderr,
      diff := none }
  else if compareOutputs r.stdout expectedOutput then
    { verdict := .AC, actualOutput := r.stdout, expectedOutput, stderr := r.stderr,
      diff := none }
  else
    { verdict := .WA, actualOutput := r.stdout, expectedOutput, stderr := r.stderr,
      diff := none }

/-- `createCompilationErrorVerdict(compileError)`. -/
def createCompilationErrorVerdict (compileError : Str) : VerdictInfo :=
  { verdict := .CE, actualOutput := [], expectedOutput := [],
    stderr := compileError, diff := none }

/-! ## Diff generator (`verdictEngine.js` companion module, `generateDiff`) -/

inductive DiffType where
  | missing | extra | different
deriving Repr, DecidableEq

/-- One entry of `differences` produced by `generateDiff`; for a
`different` line the character-level diff of `getCharacterDiff` is
attached. -/
structure DiffEntry where
  lineNumber : Nat
  type : DiffType
  /-- `characterDiff.position`: index of the first differing character,
  `-1` inapplicable (only set for `different` entries). -/
  position : Int
  lengthDifference : Int
deriving Repr, DecidableEq

/-- `getCharacterDiff(expected, actual)`: first index where the two lines
differ, or the shorter length if one is a proper prefix of the other, or
`-1` if the lines are identical. -/
def getCharacterDiff (expected actual : Str) : Int × Int :=
  let minLen := min expected.length actual.length
  let firstDiff :=
    match (List.range minLen).find? (fun i => expected.getD i ' ' ≠ actual.getD i ' ') with
    | some i => (i : Int)
    | none => if expected.length ≠ actual.length then (minLen : Int) else -1
  (firstDiff, (actual.length : Int) - (expected.length : Int))

/-- `String.prototype.split('\n')` — the line lists that `generateDiff`
walks. -/
def splitLines (l : Str) : List Str := l.splitOn '\n'

/-- The per-index classification loop of `generateDiff`: indices where the
lines agree produce no entry; an index past the end of `expected` is
`extra`, past the end of `actual` is `missing`, otherwise `different`. -/
def diffLine (i : Nat) (expectedLine actualLine : Option Str) : Option DiffEntry :=
  match expectedLine, actualLine with
  | none, _ =>
    some { lineNumber := i + 1, type := .extra, position := -1, lengthDifference := 0 }
  | some _, none =>
    some { lineNumber := i + 1, type := .missing, position := -1,
           lengthDifference := 0 }
  | some e, some a =>
    if e ≠ a then
      let cd := getCharacterDiff e a
      some { lineNumber := i + 1, type := .different, position := cd.1,
             lengthDifference := cd.2 }
    else none

/-- `generateDiff(expected, actual)`: split both on `'\n'`, walk indices
`0 ..< max` and collect the differences. -/
def generateDiff (expected actual : Str) : List DiffEntry :=
  let expectedLines := splitLines expected
  let actualLines := splitLines actual
  let maxLines := max expectedLines.length actualLines.length
  (List.range maxLines).filterMap fun i =>
    diffLine i (expectedLines.get? i) (actualLines.get? i)

example :
    generateDiff "6".data "5".data =
      [{ lineNumber := 1, type := .different, position := 0,
         lengthDifference := 0 }] := by rfl

/-! ## Compiler stage (`server/executor/compiler.js`, `compile`) -/

/-- One entry of the language table `server/languages/config.js`, restricted
to the fields the compiler stage and orchestrator read.  `errorPatterns`
are the per-language stderr regexes, modelled as boolean tests. -/
structure LangConfig where
  needsCompilation : Bool
  /-- `executable` is `null` for interpreted languages. -/
  executable : Option Str
  errorPatterns : List (Str → Bool)

/-- The C++ entry of `LANGUAGES` (patterns `/error:/i`, `/undefined
reference/i`, `/segmentation fault/i`). -/
def cppConfig : LangConfig :=
  { needsCompilation := true
    executable := some "main".data
    errorPatterns :=
      [fun s => isSubstrB "error:".data (s.map Char.toLower),
       fun s => isSubstrB "undefined reference".data (s.map Char.toLower),
       fun s => isSubstrB "segmentation fault".data (s.map Char.toLower)] }

structure CompileResult where
  success : Bool
  stderr : Str
deriving Repr, DecidableEq

/-- `compile(langConfig, workspacePath, sourceFileName)` as a function of
the compile command's execution result and of whether the expected build
artifact (`getExecutablePath(workspacePath, executable)`) exists on disk
afterwards.  Mirrors `compiler.js` lines 86–149: no-op success for
interpreted languages; failure when the exit code is non-zero or stderr
matches an error pattern; failure when the executable is missing; success
otherwise.  (Path joining is not modelled; only existence matters.) -/
def compile (cfg : LangConfig) (res : ExecutionResult) (artifactExists : Bool) :
    CompileResult :=
  if cfg.needsCompilation = false then
    { success := true, stderr := [] }
  else if (res.exitCode ≠ some 0 ∨ res.stderr ≠ []) ∧
      (cfg.errorPatterns.any (fun p => p res.stderr) ∨ res.exitCode ≠ some 0) then
    { success := false, stderr := res.stderr }
  else if cfg.executable.isSome ∧ artifactExists = false then
    { success := false, stderr := "Expected: ".data ++ cfg.executable.getD [] }
  else
    { success := true, stderr := res.stderr }

/-! ## Orchestrator (`server/api/executor.js`) -/

/-- One element of the `results` array built by the test loop of
`executeCode` (fields not referenced by any claim are omitted). -/
structure TestResult where
  /-- `testCase: i + 1` — the 1-based test number. -/
  testCase : Nat
  verdict : Verdict
  /-- `diff: verdict.diff || null`; `null`/`undefined` are both `none`. -/
  diff : Option Unit
  executionTime : Nat
deriving Repr, DecidableEq

/-- The summary object of `calculateSummary` (the `verdictBreakdown` map is
projected to the three counts used; `avgTime` uses floating-point
`Math.round` and no claim mentions it, so it is not modelled). -/
structure Summary where
  overallVerdict : Verdict
  totalTests : Nat
  passed : Nat
  failed : Nat
  /-- `firstFailure` starts as `null` (`none`). -/
  firstFailure : Option Nat
  totalTime : Nat
deriving Repr, DecidableEq

/-- JavaScript truthiness of the `firstFailure` accumulator: `null` and `0`
are falsy, any other number is truthy. -/
def jsTruthyNum : Option Nat → Bool
  | none => false
  | some n => n ≠ 0

/-- The `firstFailure` accumulation inside `calculateSummary`'s `forEach`:
`if (!firstFailure && result.verdict !== VERDICTS.AC) firstFailure =
result.testCase`. -/
def firstFailureFold (results : List TestResult) : Option Nat :=
  results.foldl
    (fun acc r =>
      if !jsTruthyNum acc ∧ r.verdict ≠ .AC then some r.testCase else acc)
    none

/-- `calculateSummary(results, totalTime)` from `executor.js` lines
140–182. -/
def calculateSummary (results : List TestResult) (totalTime : Nat) : Summary :=
  let passed := results.countP (fun r => r.verdict = .AC)
  let tleCount := results.countP (fun r => r.verdict = .TLE)
  let reCount := results.countP (fun r => r.verdict = .RE)
  let total := results.length
  let overallVerdict : Verdict :=
    if passed = total then .AC
    else if tleCount > 0 then .TLE
    else if reCount > 0 then .RE
    else .WA
  { overallVerdict := overallVerdict
    totalTests := total
    passed := passed
    failed := total - passed
    firstFailure := firstFailureFold results
    totalTime := totalTime }

/-- The data one run of a test case feeds into the orchestrator: what
`runProgram` returned for this test together with the test's expected
output. -/
structure TestRun where
  execResult : ExecutionResult
  expectedOutput : Str

/-- The test-case loop of `executeCode`: for test `i` (0-based) the result
entry carries `testCase: i + 1`, the verdict fields of `determineVerdict`,
and `diff: verdict.diff || null`. -/
def runTestCases (runs : List TestRun) : List TestResult :=
  runs.enum.map fun p =>
    let v := determineVerdict p.2.execResult p.2.expectedOutput
    { testCase := p.1 + 1, verdict := v.verdict, diff := v.diff,
      executionTime := p.2.execResult.executionTime }

/-- The response object of `executeCode`. -/
structure RunResponse where
  success : Bool
  results : List TestResult
  compilationError : Option VerdictInfo
  summary : Summary

/-- `executeCode` after workspace setup, as a function of the compile
result and of the per-test execution results: on compile failure it
returns the fixed `CE` response with no test outcomes (lines 54–68);
otherwise it runs every test case and aggregates with
`calculateSummary`. -/
def executeCode (compileRes : CompileResult) (runs : List TestRun) : RunResponse :=
  if compileRes.success = false then
    { success := false
      results := []
      compilationError := some (createCompilationErrorVerdict compileRes.stderr)
      summary :=
        { overallVerdict := .CE, totalTests := runs.length, passed := 0,
          failed := runs.length, firstFailure := none, totalTime := 0 } }
  else
    let results := runTestCases runs
    let totalTime := (runs.map (fun tr => tr.execResult.executionTime)).sum
    { success := true
      results := results
      compilationError := none
      summary := calculateSummary results totalTime }

/-! ## Workspace cleanup (`server/utils/fileSystem.js`, `cleanupWorkspace`)
and the guaranteed-cleanup block of `executeCode` -/

/-- Outcome of one `fs.rm(workspacePath, {recursive, force})` attempt. -/
inductive RmOutcome where
  | ok
  | fail (msg : Str)

/-- `cleanupWorkspace(workspacePath)`: try `fs.rm`; on failure log, wait
500ms and retry once; a retry failure is logged and swallowed.  The value
is the number of `fs.rm` attempts made; the `Except` layer models
JavaScript exception propagation — both `catch` blocks make the error case
unreachable, which is exactly "never propagated to the caller". -/
def cleanupWorkspace (first retry : RmOutcome) : Except Str Nat :=
  match first with
  | .ok => .ok 1
  | .fail _ =>
    match retry with
    | .ok => .ok 2
    | .fail _ => .ok 2

/-- Filesystem events observable during one `executeCode` call. -/
inductive ExecEvent where
  | createWs
  | cleanupWs
deriving Repr, DecidableEq

/-- Which way each fallible step of `executeCode` goes in one particular
run. -/
structure RunBehavior where
  /-- `getLanguage` found the language (else `throw` before any workspace). -/
  langFound : Bool
  /-- `createWorkspace()` resolved (else it threw with `workspacePath` still
  `null`). -/
  createWsSucceeds : Bool
  compileSucceeds : Bool
  /-- some step of the test loop threw an internal error. -/
  runnerThrows : Bool

/-- The control flow of `executeCode` (lines 27–132) reduced to its
workspace events: `workspacePath` starts `null`; the `finally` block runs
`cleanupWorkspace` exactly when `workspacePath` is non-null, on the
early-return (CE) path, the normal-return path and the rethrow path alike.
The first component is the outcome crossing the orchestrator boundary
(`.error` = rethrown), the second the ordered event list. -/
def executeCodeTrace (b : RunBehavior) : Except Str Bool × List ExecEvent :=
  if b.langFound = false then
    (.error "Language not found".data, [])
  else if b.createWsSucceeds = false then
    (.error "createWorkspace failed".data, [])
  else if b.compileSucceeds = false then
    (.ok false, [.createWs, .cleanupWs])
  else if b.runnerThrows then
    (.error "Execution error".data, [.createWs, .cleanupWs])
  else
    (.ok true, [.createWs, .cleanupWs])

/-! ## Workspace naming (`server/utils/fileSystem.js`) -/

/-- `[0-9]`. -/
def isDigitB (c : Char) : Bool := '0' ≤ c && c ≤ '9'

/-- The character class `[a-f0-9]` of `WORKSPACE_PATTERN`. -/
def isHexLowerB (c : Char) : Bool := isDigitB c || ('a' ≤ c && c ≤ 'f')

/-- The decimal digit character for `d < 10`. -/
def decDigit (d : Nat) : Char := Char.ofNat (48 + d)

/-- Decimal representation of a natural number, as produced by JavaScript
string interpolation of `Date.now()`. -/
def natToDecimal (n : Nat) : Str :=
  if _h : n < 10 then [decDigit n]
  else natToDecimal (n / 10) ++ [decDigit (n % 10)]
decreasing_by exact Nat.div_lt_self (by omega) (by omega)

/-- One lowercase hex digit for `d < 16`, as produced by
`Buffer.toString('hex')`. -/
def hexDigit (d : Nat) : Char :=
  if d < 10 then Char.ofNat (48 + d) else Char.ofNat (87 + d)

/-- `Buffer.toString('hex')`: two lowercase hex digits per byte. -/
def byteToHex (b : Nat) : Str := [hexDigit (b / 16), hexDigit (b % 16)]

def bytesToHex (bs : List Nat) : Str := (bs.map byteToHex).flatten

/-- The directory name built by `createWorkspace`:
`` `ws_${timestamp}_${uniqueId}` `` where `timestamp = Date.now()` and
`uniqueId = randomBytes(8).toString('hex')`. -/
def workspaceName (timestamp : Nat) (bytes : List Nat) : Str :=
  "ws_".data ++ natToDecimal timestamp ++ "_".data ++ bytesToHex bytes

/-- The regex `WORKSPACE_PATTERN = /^ws_\d+_[a-f0-9]+$/` used by the
startup sweep.  A match needs the literal prefix `ws_`, then a nonempty
maximal run of digits (the greedy `\d+` must be maximal because the
following character must be `_`, which no shorter run can produce), then
`_`, then a nonempty string of `[a-f0-9]` reaching the end of input. -/
def matchesWorkspacePattern (s : Str) : Bool :=
  match s with
  | 'w' :: 's' :: '_' :: rest =>
    let ds := rest.takeWhile isDigitB
    let rest2 := rest.dropWhile isDigitB
    !ds.isEmpty &&
      (match rest2 with
       | '_' :: hs => !hs.isEmpty && hs.all isHexLowerB
       | _ => false)
  | _ => false

example : matchesWorkspacePattern "ws_1700000000000_deadbeef01234567".data = true := by
  decide

example : matchesWorkspacePattern "node_modules".data = false := by decide

example : matchesWorkspacePattern "ws_12_34_56".data = false := by decide

/-! ## Helper lemmas -/

/-- The classifier as §4.5 of the spec words it, for the refinement claim
C1: strict precedence, first match wins — `timedOut` → TLE; non-null
non-zero `exitCode` → RE; non-empty stderr matching a runtime-fault
lexical pattern → RE; normalized output equality → AC; otherwise WA. -/
def specClassifier (r : ExecutionResult) (expectedOutput : Str) : Verdict :=
  if r.timedOut = true then .TLE
  else if r.exitCode ≠ some 0 ∧ r.exitCode ≠ none then .RE
  else if r.stderr ≠ [] ∧ hasRuntimeFaultPattern r.stderr then .RE
  else if strictNormalizeOutput r.stdout = strictNormalizeOutput expectedOutput then .AC
  else .WA

/-- The transformation of claim C9: `x.replace(/\n/g, "\r\n")` — every LF
becomes CR LF. -/
def replaceLfWithCrlf : Str → Str
  | [] => []
  | c :: rest =>
    if c = '\n' then '\r' :: '\n' :: replaceLfWithCrlf rest
    else c :: replaceLfWithCrlf rest

theorem isPrefixB_mem {pat l : Str} (h : isPrefixB pat l = true) :
    ∀ c ∈ pat, c ∈ l := by
  induction pat generalizing l with
  | nil => simp
  | cons a pat ih =>
    cases l with
    | nil => simp [isPrefixB] at h
    | cons b l =>
      simp only [isPrefixB, Bool.and_eq_true, decide_eq_true_eq] at h
      obtain ⟨rfl, h⟩ := h
      intro c hc
      rcases List.mem_cons.1 hc with rfl | hc
      · exact List.mem_cons_self _ _
      · exact List.mem_cons_of_mem _ (ih h c hc)

theorem isSubstrB_mem {pat l : Str} (h : isSubstrB pat l = true) :
    ∀ c ∈ pat, c ∈ l := by
  induction l with
  | nil =>
    cases pat with
    | nil => simp
    | cons a pat => simp [isSubstrB, isPrefixB] at h
  | cons b l ih =>
    simp only [isSubstrB, Bool.or_eq_true] at h
    rcases h with h | h
    · exact isPrefixB_mem h
    · exact fun c hc => List.mem_cons_of_mem _ (ih h c hc)

theorem isJsWhitespace_of_isSpaceTab {c : Char} (h : isSpaceTab c = true) :
    isJsWhitespace c = true := by
  simp only [isSpaceTab, Bool.or_eq_true, decide_eq_true_eq] at h
  rcases h with rfl | rfl <;> decide

/-- No JavaScript whitespace character is an ASCII uppercase letter, so
`Char.toLower` leaves all of them unchanged. -/
theorem toLower_eq_self_of_ws {c : Char} (h : isJsWhitespace c = true) :
    c.toLower = c := by
  simp only [isJsWhitespace, Bool.or_eq_true, Bool.and_eq_true,
    decide_eq_true_eq] at h
  rcases h with hmem | ⟨h1, h2⟩
  · fin_cases hmem <;> decide
  · have hv : 8192 ≤ c.toNat := by
      rw [Char.le_def] at h1
      have h1' : ('\u2000'.val).toNat ≤ (c.val).toNat := h1
      have hval : ('\u2000'.val).toNat = 8192 := by decide
      rw [hval] at h1'
      exact h1'
    have hn : ¬(65 ≤ c.toNat ∧ c.toNat ≤ 90) := by omega
    simp only [Char.toLower]
    rw [if_neg hn]

theorem mem_ltrimChars {c : Char} {l : Str} (h : c ∈ ltrimChars l) : c ∈ l :=
  (List.dropWhile_sublist _).mem h

theorem mem_rtrimChars {c : Char} {l : Str} (h : c ∈ rtrimChars l) : c ∈ l := by
  unfold rtrimChars at h
  rw [List.mem_reverse] at h
  exact List.mem_reverse.1 ((List.dropWhile_sublist _).mem h)

theorem mem_trimChars {c : Char} {l : Str} (h : c ∈ trimChars l) : c ∈ l :=
  mem_ltrimChars (mem_rtrimChars h)

/-- If the trimmed string is empty, every character was whitespace. -/
theorem all_ws_of_trimChars_nil {l : Str} (h : trimChars l = []) :
    ∀ c ∈ l, isJsWhitespace c = true := by
  intro c hc
  by_contra hws
  rw [Bool.not_eq_true] at hws
  have hlt : c ∈ ltrimChars l := by
    have := List.takeWhile_append_dropWhile
      (p := fun c => isJsWhitespace c) (l := l)
    rw [← this] at hc
    rcases List.mem_append.1 hc with hmem | hmem
    · have := List.mem_takeWhile_imp hmem
      simp [hws] at this
    · exact hmem
  unfold trimChars rtrimChars at h
  rw [List.reverse_eq_nil_iff, List.dropWhile_eq_nil_iff] at h
  have := h c (List.mem_reverse.2 hlt)
  simp [hws] at this

/-- A runtime-fault pattern match forces a non-blank stderr: each of the
four alternatives contains the letter `e`, whose preimage under `toLower`
is never whitespace. -/
theorem trim_ne_nil_of_fault {s : Str} (h : hasRuntimeFaultPattern s = true) :
    s ≠ [] ∧ (trimChars s).length > 0 := by
  have he : ('e' : Char) ∈ s.map Char.toLower := by
    simp only [hasRuntimeFaultPattern, Bool.or_eq_true] at h
    rcases h with ((h | h) | h) | h
    · exact isSubstrB_mem h 'e' (by decide)
    · exact isSubstrB_mem h 'e' (by decide)
    · exact isSubstrB_mem h 'e' (by decide)
    · exact isSubstrB_mem h 'e' (by decide)
  obtain ⟨c, hcs, hce⟩ := List.mem_map.1 he
  refine ⟨fun hnil => by simp [hnil] at hcs, ?_⟩
  rcases Nat.eq_zero_or_pos (trimChars s).length with hz | hpos
  · exfalso
    rw [List.length_eq_zero] at hz
    have hws := all_ws_of_trimChars_nil hz c hcs
    rw [toLower_eq_self_of_ws hws] at hce
    subst hce
    simp [isJsWhitespace] at hws
  · exact hpos

theorem stripTrailWs_length_le (l : Str) : (stripTrailWs l).length ≤ l.length := by
  induction l with
  | nil => simp [stripTrailWs]
  | cons c l ih =>
    simp only [stripTrailWs]
    split
    · exact Nat.le_succ_of_le ih
    · simpa using ih

theorem mem_stripTrailWs {c : Char} {l : Str} (h : c ∈ stripTrailWs l) : c ∈ l := by
  induction l with
  | nil => simp [stripTrailWs] at h
  | cons b l ih =>
    simp only [stripTrailWs] at h
    split at h
    · exact List.mem_cons_of_mem _ (ih h)
    · rcases List.mem_cons.1 h with rfl | h
      · exact List.mem_cons_self _ _
      · exact List.mem_cons_of_mem _ (ih h)

/-- Unfolding lemma for fixed points of `stripTrailWs` at a cons cell: the
branch that deletes the head can never return a list of the same length,
so a cons is fixed exactly when its tail is fixed and the head is not a
deleted space/tab. -/
theorem stripTrailWs_fix_cons_iff {c : Char} {l : Str} :
    stripTrailWs (c :: l) = c :: l ↔
      stripTrailWs l = l ∧ (isSpaceTab c && atLineBreak l) = false := by
  constructor
  · intro h
    rcases hc : (isSpaceTab c && atLineBreak (stripTrailWs l)) with hfalse | htrue
    · have hcons : stripTrailWs (c :: l) = c :: stripTrailWs l := by
        simp only [stripTrailWs, hc]
        simp
      rw [hcons] at h
      have htail : stripTrailWs l = l := (List.cons.injEq _ _ _ _ ▸ h).2
      exact ⟨htail, by rwa [htail] at hc⟩
    · exfalso
      have hdrop : stripTrailWs (c :: l) = stripTrailWs l := by
        simp only [stripTrailWs, hc]
        simp
      rw [hdrop] at h
      have := stripTrailWs_length_le l
      rw [h] at this
      simp at this
  · intro ⟨htail, hc⟩
    have hc' : (isSpaceTab c && atLineBreak (stripTrailWs l)) = false := by
      rwa [htail]
    simp only [stripTrailWs, hc']
    simp [htail]

theorem stripTrailWs_idem (l : Str) :
    stripTrailWs (stripTrailWs l) = stripTrailWs l := by
  induction l with
  | nil => rfl
  | cons c l ih =>
    rcases hc : (isSpaceTab c && atLineBreak (stripTrailWs l)) with hfalse | htrue
    · have hcons : stripTrailWs (c :: l) = c :: stripTrailWs l := by
        simp only [stripTrailWs, hc]; simp
      rw [hcons, stripTrailWs_fix_cons_iff]
      exact ⟨ih, hc⟩
    · have hdrop : stripTrailWs (c :: l) = stripTrailWs l := by
        simp only [stripTrailWs, hc]; simp
      rw [hdrop, ih]

theorem stripTrailWs_fix_suffix {l' l : Str} (hsuf : l' <:+ l)
    (hfix : stripTrailWs l = l) : stripTrailWs l' = l' := by
  induction l with
  | nil =>
    rw [List.suffix_nil] at hsuf
    subst hsuf; rfl
  | cons c l ih =>
    rcases List.suffix_cons_iff.1 hsuf with rfl | hsuf
    · exact hfix
    · exact ih hsuf (stripTrailWs_fix_cons_iff.1 hfix).1

/-- Pulling a fixed point of `stripTrailWs` back along an append: the left
part stays fixed provided the boundary cannot activate the deletion rule —
either the left part does not end in a space/tab, or the removed right
part begins with a line break. -/
theorem stripTrailWs_fix_append {u w : Str}
    (hfix : stripTrailWs (u ++ w) = u ++ w)
    (hb : ∀ c, u.getLast? = some c → isSpaceTab c = true → atLineBreak w = true) :
    stripTrailWs u = u := by
  induction u with
  | nil => rfl
  | cons c u ih =>
    rw [List.cons_append, stripTrailWs_fix_cons_iff] at hfix
    obtain ⟨hfix, hcb⟩ := hfix
    have hbu : ∀ d, u.getLast? = some d → isSpaceTab d = true → atLineBreak w = true := by
      intro d hd hsd
      apply hb d _ hsd
      cases u with
      | nil => simp at hd
      | cons e u => rw [List.getLast?_cons_cons]; exact hd
    have htail := ih hfix hbu
    rw [stripTrailWs_fix_cons_iff]
    refine ⟨htail, ?_⟩
    cases u with
    | cons d u =>
      simpa only [List.cons_append, atLineBreak] using hcb
    | nil =>
      simp only [atLineBreak]
      rcases hst : isSpaceTab c with h0 | h1
      · simp
      · have hlast : ([c] : Str).getLast? = some c := rfl
        have := hb c hlast hst
        rw [List.nil_append] at hcb
        rw [show atLineBreak w = true from this] at hcb
        simp [hst] at hcb

/-- `dropTrailNl` splits off a (possibly empty) suffix consisting only of
LF characters. -/
theorem dropTrailNl_decomp (l : Str) :
    l = dropTrailNl l ++ (l.reverse.takeWhile (fun c => c = '\n')).reverse ∧
      ∀ c ∈ (l.reverse.takeWhile (fun c => c = '\n')).reverse, c = '\n' := by
  constructor
  · conv_lhs => rw [← List.reverse_reverse l, ← List.takeWhile_append_dropWhile
      (p := fun c => c = '\n') (l := l.reverse)]
    rw [List.reverse_append]
    rfl
  · intro c hc
    rw [List.mem_reverse] at hc
    have := List.mem_takeWhile_imp hc
    simpa using this

theorem rtrimChars_decomp (l : Str) :
    l = rtrimChars l ++ (l.reverse.takeWhile (fun c => isJsWhitespace c)).reverse ∧
      ∀ c ∈ (l.reverse.takeWhile (fun c => isJsWhitespace c)).reverse,
        isJsWhitespace c = true := by
  constructor
  · conv_lhs => rw [← List.reverse_reverse l, ← List.takeWhile_append_dropWhile
      (p := fun c => isJsWhitespace c) (l := l.reverse)]
    rw [List.reverse_append]
    rfl
  · intro c hc
    rw [List.mem_reverse] at hc
    exact List.mem_takeWhile_imp hc

theorem dropWhile_head?_false {p : Char → Bool} {l : Str} {c : Char}
    (h : (l.dropWhile p).head? = some c) : p c = false := by
  have hne : l.dropWhile p ≠ [] := by
    intro hnil; rw [hnil] at h; simp at h
  have hhead := List.head_dropWhile_not p l hne
  rw [List.head?_eq_head hne, Option.some_inj] at h
  rw [h] at hhead
  simpa using hhead

/-- The last character surviving `rtrimChars` is not whitespace. -/
theorem rtrimChars_getLast? {l : Str} {c : Char}
    (h : (rtrimChars l).getLast? = some c) : isJsWhitespace c = false := by
  rw [← List.head?_reverse, rtrimChars, List.reverse_reverse] at h
  exact dropWhile_head?_false h

/-- The first character surviving `ltrimChars` is not whitespace. -/
theorem ltrimChars_head? {l : Str} {c : Char}
    (h : (ltrimChars l).head? = some c) : isJsWhitespace c = false :=
  dropWhile_head?_false h

theorem ltrimChars_eq_self {l : Str}
    (h : ∀ c, l.head? = some c → isJsWhitespace c = false) : ltrimChars l = l := by
  cases l with
  | nil => rfl
  | cons c l =>
    have := h c rfl
    simp [ltrimChars, List.dropWhile_cons, this]

theorem rtrimChars_eq_self {l : Str}
    (h : ∀ c, l.getLast? = some c → isJsWhitespace c = false) : rtrimChars l = l := by
  unfold rtrimChars
  rw [← List.reverse_reverse l]
  congr 1
  rw [List.reverse_reverse]
  cases hl : l.reverse with
  | nil => rfl
  | cons c r =>
    have hc : l.getLast? = some c := by
      rw [← List.head?_reverse, hl]; rfl
    simp [List.dropWhile_cons, h c hc]

theorem dropTrailNl_eq_self {l : Str}
    (h : l.getLast? ≠ some '\n') : dropTrailNl l = l := by
  unfold dropTrailNl
  rw [← List.reverse_reverse l]
  congr 1
  rw [List.reverse_reverse]
  cases hl : l.reverse with
  | nil => rfl
  | cons c r =>
    have hc : l.getLast? = some c := by
      rw [← List.head?_reverse, hl]; rfl
    have : ¬(c = '\n') := fun hcn => h (hcn ▸ hc)
    simp [List.dropWhile_cons, this]

/-- `rtrimChars` produces a prefix of its input. -/
theorem rtrimChars_isPrefix (l : Str) : rtrimChars l <+: l := by
  rw [← List.reverse_suffix, rtrimChars, List.reverse_reverse]
  exact List.dropWhile_suffix _

/-- The head of a trimmed string is not whitespace. -/
theorem trimChars_head? {l : Str} {c : Char}
    (h : (trimChars l).head? = some c) : isJsWhitespace c = false := by
  obtain ⟨t, ht⟩ := rtrimChars_isPrefix (ltrimChars l)
  apply ltrimChars_head? (l := l)
  rw [← ht]
  have hrt : trimChars l = rtrimChars (ltrimChars l) := rfl
  rw [hrt] at h
  cases hx : rtrimChars (ltrimChars l) with
  | nil => rw [hx] at h; simp at h
  | cons d r =>
    rw [hx] at h
    rw [List.cons_append]
    simpa using h

/-- The last character of a trimmed string is not whitespace. -/
theorem trimChars_getLast? {l : Str} {c : Char}
    (h : (trimChars l).getLast? = some c) : isJsWhitespace c = false :=
  rtrimChars_getLast? h

theorem trimChars_idem (l : Str) : trimChars (trimChars l) = trimChars l := by
  have h1 : ltrimChars (trimChars l) = trimChars l :=
    ltrimChars_eq_self (fun c hc => trimChars_head? hc)
  show rtrimChars (ltrimChars (trimChars l)) = trimChars l
  rw [h1]
  exact rtrimChars_eq_self fun c hc => trimChars_getLast? hc

theorem not_cr_mem_replaceCr (l : Str) : '\r' ∉ replaceCr l := by
  intro h
  obtain ⟨c, _, hc⟩ := List.mem_map.1 h
  by_cases hcr : c = '\r' <;> simp [hcr] at hc

theorem replaceCrlf_cons_of_ne {c : Char} {l : Str} (hc : c ≠ '\r') :
    replaceCrlf (c :: l) = c :: replaceCrlf l := by
  conv_lhs => rw [replaceCrlf.eq_def]
  split
  · rename_i rest heq
    rw [List.cons.injEq] at heq
    exact absurd heq.1 hc
  · rename_i x d rest heq
    rw [List.cons.injEq] at heq
    obtain ⟨rfl, rfl⟩ := heq
    rfl
  · rename_i heq
    simp at heq

theorem replaceCrlf_eq_self {l : Str} (h : '\r' ∉ l) : replaceCrlf l = l := by
  induction l with
  | nil => rfl
  | cons c l ih =>
    have hc : c ≠ '\r' := fun hcr => h (hcr ▸ List.mem_cons_self _ _)
    have hl : '\r' ∉ l := fun hm => h (List.mem_cons_of_mem _ hm)
    rw [replaceCrlf_cons_of_ne hc, ih hl]

theorem replaceCr_eq_self {l : Str} (h : '\r' ∉ l) : replaceCr l = l := by
  unfold replaceCr
  conv_rhs => rw [← List.map_id l]
  apply List.map_congr_left
  intro c hc
  have : c ≠ '\r' := fun hcr => h (hcr ▸ hc)
  simp [this]

theorem mem_dropTrailNl {c : Char} {l : Str} (h : c ∈ dropTrailNl l) : c ∈ l := by
  unfold dropTrailNl at h
  rw [List.mem_reverse] at h
  exact List.mem_reverse.1 ((List.dropWhile_sublist _).mem h)

/-- Characters of the normalized output all come from `replaceCr`'s output,
so the normalized output never contains a carriage return. -/
theorem not_cr_mem_strictNormalizeOutput (l : Str) :
    '\r' ∉ strictNormalizeOutput l := by
  intro h
  exact not_cr_mem_replaceCr (replaceCrlf l)
    (mem_stripTrailWs (mem_dropTrailNl (mem_trimChars h)))

/-- `atLineBreak` holds in front of any all-LF list. -/
theorem atLineBreak_of_all_nl {w : Str} (h : ∀ c ∈ w, c = '\n') :
    atLineBreak w = true := by
  cases w with
  | nil => rfl
  | cons c w =>
    have := h c (List.mem_cons_self _ _)
    subst this
    simp [atLineBreak, isLineTerm]

/-- A fixed point of `stripTrailWs` stays fixed after `dropTrailNl`: the
removed suffix is all LF, so the boundary condition of
`stripTrailWs_fix_append` holds. -/
theorem stripTrailWs_fix_dropTrailNl {l : Str}
    (hfix : stripTrailWs l = l) : stripTrailWs (dropTrailNl l) = dropTrailNl l := by
  obtain ⟨hdec, hall⟩ := dropTrailNl_decomp l
  rw [hdec] at hfix
  exact stripTrailWs_fix_append hfix (fun c _ _ => atLineBreak_of_all_nl hall)

/-- A fixed point of `stripTrailWs` stays fixed after `trim()`: the left
trim produces a suffix, and the right trim removes a whitespace-only block
behind a last character that cannot be a space or tab. -/
theorem stripTrailWs_fix_trimChars {l : Str}
    (hfix : stripTrailWs l = l) : stripTrailWs (trimChars l) = trimChars l := by
  have hlt : stripTrailWs (ltrimChars l) = ltrimChars l :=
    stripTrailWs_fix_suffix (List.dropWhile_suffix _) hfix
  obtain ⟨hdec, _⟩ := rtrimChars_decomp (ltrimChars l)
  rw [hdec] at hlt
  apply stripTrailWs_fix_append hlt
  intro c hc hst
  exact absurd (rtrimChars_getLast? hc)
    (by simp [isJsWhitespace_of_isSpaceTab hst])

/-- The normalized output does not end in a line feed (`trim()` ran last),
so `dropTrailNl` fixes it. -/
theorem dropTrailNl_fix_strictNormalizeOutput (l : Str) :
    dropTrailNl (strictNormalizeOutput l) = strictNormalizeOutput l := by
  apply dropTrailNl_eq_self
  intro h
  have := trimChars_getLast? (l := dropTrailNl (stripTrailWs (replaceCr (replaceCrlf l)))) h
  simp [isJsWhitespace] at this

theorem stripTrailWs_fix_strictNormalizeOutput (l : Str) :
    stripTrailWs (strictNormalizeOutput l) = strictNormalizeOutput l :=
  stripTrailWs_fix_trimChars (stripTrailWs_fix_dropTrailNl (stripTrailWs_idem _))

theorem replaceCrlf_replaceLfWithCrlf {l : Str} (h : '\r' ∉ l) :
    replaceCrlf (replaceLfWithCrlf l) = l := by
  induction l with
  | nil => rfl
  | cons c l ih =>
    have hc : c ≠ '\r' := fun e => h (e ▸ List.mem_cons_self _ _)
    have hl : '\r' ∉ l := fun m => h (List.mem_cons_of_mem _ m)
    by_cases hn : c = '\n'
    · subst hn
      rw [show replaceLfWithCrlf ('\n' :: l) = '\r' :: '\n' :: replaceLfWithCrlf l by
        simp [replaceLfWithCrlf]]
      rw [show replaceCrlf ('\r' :: '\n' :: replaceLfWithCrlf l) =
        '\n' :: replaceCrlf (replaceLfWithCrlf l) from rfl]
      rw [ih hl]
    · rw [show replaceLfWithCrlf (c :: l) = c :: replaceLfWithCrlf l by
        simp [replaceLfWithCrlf, hn]]
      rw [replaceCrlf_cons_of_ne hc, ih hl]

/-! ## Claim theorems -/

/-- C5: the normalization used for output comparison
(`strictNormalizeOutput`) preserves letter case — `normalize("YES") ≠
normalize("yes")` — so `compareOutputs` is case-sensitive. -/
theorem claim5_normalization_preserves_case :
    strictNormalizeOutput "YES".data ≠ strictNormalizeOutput "yes".data ∧
      compareOutputs "YES".data "yes".data = false := by
  exact ⟨by decide, by decide⟩

/-- C8: output normalization is idempotent:
`normalize(normalize(x)) = normalize(x)` for every string `x`. -/
theorem claim8_normalization_idempotent (l : Str) :
    strictNormalizeOutput (strictNormalizeOutput l) = strictNormalizeOutput l := by
  have hcr := not_cr_mem_strictNormalizeOutput l
  show trimChars (dropTrailNl (stripTrailWs (replaceCr (replaceCrlf
    (strictNormalizeOutput l))))) = strictNormalizeOutput l
  rw [replaceCrlf_eq_self hcr, replaceCr_eq_self hcr,
    stripTrailWs_fix_strictNormalizeOutput, dropTrailNl_fix_strictNormalizeOutput]
  exact trimChars_idem _

/-- C9 counterexample: the claim quantifies over *every* string, but a
string that already contains a carriage return refutes it — for
`x = "a\r\nb"`, replacing every `\n` by `\r\n` gives `"a\r\r\nb"`, which
normalizes to `"a\n\nb"` while `x` normalizes to `"a\nb"`. -/
theorem claim9_counterexample :
    ¬ strictNormalizeOutput (replaceLfWithCrlf "a\r\nb".data) =
      strictNormalizeOutput "a\r\nb".data := by decide

/-- C9 (amended): for every string `x` that contains no carriage return,
replacing every `\n` in `x` with `\r\n` does not change the normalized
form. -/
theorem claim9_line_ending_insensitive (l : Str) (h : '\r' ∉ l) :
    strictNormalizeOutput (replaceLfWithCrlf l) = strictNormalizeOutput l := by
  unfold strictNormalizeOutput
  rw [replaceCrlf_replaceLfWithCrlf h, replaceCrlf_eq_self h]

/-- Witness for C9 (amended) at the concrete CR-free input `"6\n7 "`. -/
theorem claim9_witness :
    ('\r' ∉ "6\n7 ".data) ∧
      strictNormalizeOutput (replaceLfWithCrlf "6\n7 ".data) =
        strictNormalizeOutput "6\n7 ".data :=
  ⟨by decide, claim9_line_ending_insensitive "6\n7 ".data (by decide)⟩

/-- C6: on a spawn failure, `executeWithTimeout` resolves with the sentinel
exit code `-1` and a stderr that carries the spawn error message; it is a
total function into `ExecutionResult` (the promise never rejects and no
exception escapes this boundary). -/
theorem claim6_spawn_failure_sentinel (msg : Str) (elapsed : Nat) :
    (executeWithTimeout (.spawnError msg elapsed)).exitCode = some (-1) ∧
      (∃ pre, (executeWithTimeout (.spawnError msg elapsed)).stderr = pre ++ msg) ∧
      (executeWithTimeout (.spawnError msg elapsed)).timedOut = false :=
  ⟨rfl, ⟨"Process spawn error: ".data, rfl⟩, rfl⟩

/-- C2 — the code violates the claim.  At the Scenario-B input (expected
`"6"`, actual `"5"`, clean exit) the verdict is `WA`, but the
`TestOutcome` built by `executeCode` carries `diff = none`:
`determineVerdict` never sets a `diff` property, so `verdict.diff || null`
is always `null`, even though the diff generator, applied as the spec
intends, reports exactly one `different` line at character offset 0. -/
theorem claim2_wa_diff_missing :
    (determineVerdict
        { stdout := "5".data, stderr := [], exitCode := some 0,
          timedOut := false, killed := false, executionTime := 3 }
        "6".data).verdict = .WA ∧
    (runTestCases
        [{ execResult :=
            { stdout := "5".data, stderr := [], exitCode := some 0,
              timedOut := false, killed := false, executionTime := 3 },
           expectedOutput := "6".data }]).map (fun t => t.diff) = [none] ∧
    generateDiff "6".data "5".data =
      [{ lineNumber := 1, type := .different, position := 0,
         lengthDifference := 0 }] := by
  refine ⟨by decide, ?_, by rfl⟩
  rfl

/-- C1: `determineVerdict` applies the five §4.5 classification rules in
strict order with first match winning — its verdict coincides with the
spec-worded cascade `specClassifier` on every input (the code's extra
`stderr.trim().length > 0` guard is implied by a runtime-fault match); in
particular a result with `timedOut = true` is classified `TLE` whatever
its stdout, even when it equals the expected output. -/
theorem claim1_verdict_precedence (r : ExecutionResult) (expectedOutput : Str) :
    (determineVerdict r expectedOutput).verdict = specClassifier r expectedOutput ∧
    (determineVerdict { r with timedOut := true } expectedOutput).verdict = .TLE := by
  constructor
  · by_cases ht : r.timedOut
    · simp [determineVerdict, specClassifier, ht]
    · by_cases hec : r.exitCode ≠ some 0 ∧ r.exitCode ≠ none
      · simp [determineVerdict, specClassifier, ht, hec]
      · by_cases hf : hasRuntimeFaultPattern r.stderr = true
        · have htr := trim_ne_nil_of_fault hf
          simp [determineVerdict, specClassifier, ht, hec, hf, htr.1, htr.2]
        · simp only [determineVerdict, specClassifier, compareOutputs, ht, hec, hf]
          by_cases hcmp : strictNormalizeOutput r.stdout =
              strictNormalizeOutput expectedOutput <;>
            simp [hcmp]
  · simp [determineVerdict]

theorem countP_outcomes (f : Verdict → Bool) (vs : List Verdict) (k : Nat) :
    (((vs.enumFrom k).map (fun p =>
        ({ testCase := p.1 + 1, verdict := p.2, diff := none,
           executionTime := 0 } : TestResult)))).countP (fun r => f r.verdict) =
      vs.countP f := by
  induction vs generalizing k with
  | nil => rfl
  | cons v vs ih =>
    simp only [List.enumFrom_cons, List.map_cons, List.countP_cons, ih]

theorem firstFailure_foldl_skip (rs : List TestResult) (acc : Option Nat)
    (h : jsTruthyNum acc = true) :
    rs.foldl
      (fun a r =>
        if !jsTruthyNum a ∧ r.verdict ≠ .AC then some r.testCase else a)
      acc = acc := by
  induction rs generalizing acc with
  | nil => rfl
  | cons r rs ih =>
    simp only [List.foldl_cons, h]
    rw [if_neg (by simp [h])]
    exact ih acc h

theorem firstFailureFold_enumFrom (vs : List Verdict) (k : Nat) :
    firstFailureFold ((vs.enumFrom k).map (fun p =>
        ({ testCase := p.1 + 1, verdict := p.2, diff := none,
           executionTime := 0 } : TestResult))) =
      vs.findIdx? (fun v => v ≠ .AC) (k + 1) := by
  induction vs generalizing k with
  | nil => rfl
  | cons v vs ih =>
    unfold firstFailureFold
    simp only [List.enumFrom_cons, List.map_cons, List.foldl_cons,
      List.findIdx?_cons]
    by_cases hv : v = Verdict.AC
    · rw [if_neg (by simp [jsTruthyNum, hv]), if_neg (by simp [hv])]
      exact ih (k + 1)
    · rw [if_pos (by simp [jsTruthyNum, hv]), if_pos (by simp [hv])]
      exact firstFailure_foldl_skip _ _ (by simp [jsTruthyNum])

/-- C3: for every list of per-test verdicts (numbered `1..n` the way the
orchestrator's test loop numbers them), `calculateSummary` reports overall
`AC` iff every outcome is `AC`, else `TLE` if any `TLE` is present, else
`RE` if any `RE` is present, else `WA`; and `firstFailure` is the reported
test number (lowest index, 1-based) of the first non-`AC` outcome. -/
theorem claim3_summary_aggregation (vs : List Verdict) (totalTime : Nat) :
    ((calculateSummary (vs.enum.map (fun p =>
        ({ testCase := p.1 + 1, verdict := p.2, diff := none,
           executionTime := 0 } : TestResult))) totalTime).overallVerdict =
      (if ∀ v ∈ vs, v = Verdict.AC then Verdict.AC
       else if Verdict.TLE ∈ vs then Verdict.TLE
       else if Verdict.RE ∈ vs then Verdict.RE
       else Verdict.WA)) ∧
    ((calculateSummary (vs.enum.map (fun p =>
        ({ testCase := p.1 + 1, verdict := p.2, diff := none,
           executionTime := 0 } : TestResult))) totalTime).firstFailure =
      (vs.findIdx? (fun v => v ≠ Verdict.AC)).map (· + 1)) := by
  rw [show vs.enum = vs.enumFrom 0 from rfl]
  have h1 := countP_outcomes (fun v => v = Verdict.AC) vs 0
  have h2 := countP_outcomes (fun v => v = Verdict.TLE) vs 0
  have h3 := countP_outcomes (fun v => v = Verdict.RE) vs 0
  have h4 := firstFailureFold_enumFrom vs 0
  have hlen : ((vs.enumFrom 0).map (fun p =>
      ({ testCase := p.1 + 1, verdict := p.2, diff := none,
         executionTime := 0 } : TestResult))).length = vs.length := by
    simp
  have c1 : vs.countP (fun v => v = Verdict.AC) = vs.length ↔
      ∀ v ∈ vs, v = Verdict.AC := by
    rw [List.countP_eq_length]
    simp
  have c2 : 0 < vs.countP (fun v => v = Verdict.TLE) ↔ Verdict.TLE ∈ vs := by
    rw [List.countP_pos_iff]
    simp
  have c3 : 0 < vs.countP (fun v => v = Verdict.RE) ↔ Verdict.RE ∈ vs := by
    rw [List.countP_pos_iff]
    simp
  constructor
  · simp only [calculateSummary, h1, h2, h3, hlen]
    by_cases hall : ∀ v ∈ vs, v = Verdict.AC
    · rw [if_pos (c1.mpr hall), if_pos hall]
    · rw [if_neg (fun hc => hall (c1.mp hc)), if_neg hall]
      by_cases htle : Verdict.TLE ∈ vs
      · rw [if_pos (c2.mpr htle), if_pos htle]
      · rw [if_neg (fun hc => htle (c2.mp hc)), if_neg htle]
        by_cases hre : Verdict.RE ∈ vs
        · rw [if_pos (c3.mpr hre), if_pos hre]
        · rw [if_neg (fun hc => hre (c3.mp hc)), if_neg hre]
  · simp only [calculateSummary, h4]
    rw [show (0 : Nat) + 1 = 0 + 1 from rfl, List.findIdx?_succ]

/-- C4: for every compiled-language configuration (`needsCompilation` set,
an expected build artifact configured), the compile stage reports success
only when the compile command exited 0 and the artifact exists afterwards;
and when the command exits 0 but the artifact is missing, compilation
fails, `executeCode` returns the `CE` verdict and runs zero test cases. -/
theorem claim4_compile_requires_artifact (exe : Str) (pats : List (Str → Bool))
    (res : ExecutionResult) (artifactExists : Bool) (runs : List TestRun) :
    ((compile ⟨true, some exe, pats⟩ res artifactExists).success = true →
      res.exitCode = some 0 ∧ artifactExists = true) ∧
    (res.exitCode = some 0 →
      (compile ⟨true, some exe, pats⟩ res false).success = false ∧
      (executeCode (compile ⟨true, some exe, pats⟩ res false) runs).results = [] ∧
      (executeCode (compile ⟨true, some exe, pats⟩ res false) runs).summary.overallVerdict
        = Verdict.CE) := by
  constructor
  · intro hs
    by_cases hec : res.exitCode = some 0
    · refine ⟨hec, ?_⟩
      by_cases hart : artifactExists = true
      · exact hart
      · exfalso
        rw [Bool.not_eq_true] at hart
        unfold compile at hs
        rw [if_neg (by simp)] at hs
        split at hs
        · simp at hs
        · rw [if_pos (by simp [hart])] at hs
          simp at hs
    · exfalso
      unfold compile at hs
      rw [if_neg (by simp)] at hs
      rw [if_pos ⟨Or.inl hec, Or.inr hec⟩] at hs
      simp at hs
  · intro hec
    have hfail : (compile ⟨true, some exe, pats⟩ res false).success = false := by
      unfold compile
      rw [if_neg (by simp)]
      split
      · rfl
      · rw [if_pos (by simp)]
    refine ⟨hfail, ?_, ?_⟩ <;> simp [executeCode, hfail]

/-- Witness for C4: a `gcc`-style run that exits 0 with no artifact on disk
is rejected with `CE` and zero outcomes, while the same exit with the
artifact present passes the compile stage. -/
theorem claim4_witness :
    ((compile ⟨true, some "main".data, []⟩
        { stdout := [], stderr := [], exitCode := some 0, timedOut := false,
          killed := false, executionTime := 1200 } false).success = false ∧
      (executeCode (compile ⟨true, some "main".data, []⟩
        { stdout := [], stderr := [], exitCode := some 0, timedOut := false,
          killed := false, executionTime := 1200 } false)
        [{ execResult :=
            { stdout := "5".data, stderr := [], exitCode := some 0,
              timedOut := false, killed := false, executionTime := 3 },
           expectedOutput := "5".data }]).results = []) ∧
    ((some 0 : Option Int) = some 0 ∧ true = true) := by
  refine ⟨⟨?_, ?_⟩, ?_⟩
  · exact ((claim4_compile_requires_artifact "main".data []
      { stdout := [], stderr := [], exitCode := some 0, timedOut := false,
        killed := false, executionTime := 1200 } false []).2 rfl).1
  · exact ((claim4_compile_requires_artifact "main".data []
      { stdout := [], stderr := [], exitCode := some 0, timedOut := false,
        killed := false, executionTime := 1200 } false
      [{ execResult :=
          { stdout := "5".data, stderr := [], exitCode := some 0,
            timedOut := false, killed := false, executionTime := 3 },
         expectedOutput := "5".data }]).2 rfl).2.1
  · exact (claim4_compile_requires_artifact "main".data []
      { stdout := [], stderr := [], exitCode := some 0, timedOut := false,
        killed := false, executionTime := 1200 } true []).1 (by decide)

/-- C7: on every behaviour of one `executeCode` call, a cleanup event is
recorded exactly as often as a workspace-creation event (in particular on
the compile-failure return, the normal return and the internal-error
rethrow); and `cleanupWorkspace` always returns successfully — one `fs.rm`
attempt when the first succeeds, a single retry when it fails, with no
error propagated in any case. -/
theorem claim7_guaranteed_cleanup (b : RunBehavior) (first retry : RmOutcome) :
    ((executeCodeTrace b).2.count ExecEvent.createWs =
      (executeCodeTrace b).2.count ExecEvent.cleanupWs) ∧
    (∃ n, cleanupWorkspace first retry = .ok n ∧
      (first = .ok → n = 1) ∧ (first ≠ .ok → n = 2)) := by
  constructor
  · obtain ⟨lf, cw, cs, rt⟩ := b
    cases lf <;> cases cw <;> cases cs <;> cases rt <;> rfl
  · cases first with
    | ok => exact ⟨1, rfl, fun _ => rfl, fun h => absurd rfl h⟩
    | fail m =>
      cases retry with
      | ok => exact ⟨2, rfl, fun h => RmOutcome.noConfusion h, fun _ => rfl⟩
      | fail m2 => exact ⟨2, rfl, fun h => RmOutcome.noConfusion h, fun _ => rfl⟩

/-- Witness for C7: with a failing first `fs.rm` and a successful retry,
cleanup makes exactly two attempts and reports success. -/
theorem claim7_witness :
    cleanupWorkspace (.fail "EBUSY".data) .ok = .ok 2 := by
  obtain ⟨n, hok, -, h2⟩ :=
    (claim7_guaranteed_cleanup
      { langFound := true, createWsSucceeds := true, compileSucceeds := true,
        runnerThrows := false }
      (.fail "EBUSY".data) .ok).2
  rw [h2 (fun h => RmOutcome.noConfusion h)] at hok
  exact hok

theorem natToDecimal_ne_nil (n : Nat) : natToDecimal n ≠ [] := by
  rw [natToDecimal]
  split <;> simp

theorem decDigit_digit : ∀ d, d < 10 → isDigitB (decDigit d) = true := by decide

theorem natToDecimal_all_digits (n : Nat) :
    ∀ c ∈ natToDecimal n, isDigitB c = true := by
  induction n using Nat.strong_induction_on with
  | _ n ih =>
    rw [natToDecimal]
    split
    · next h =>
      intro c hc
      rw [List.mem_singleton] at hc
      subst hc
      exact decDigit_digit n h
    · next h =>
      intro c hc
      rcases List.mem_append.1 hc with hm | hm
      · exact ih (n / 10) (Nat.div_lt_self (by omega) (by omega)) c hm
      · rw [List.mem_singleton] at hm
        subst hm
        exact decDigit_digit _ (Nat.mod_lt _ (by omega))

theorem hexDigit_hex : ∀ d, d < 16 → isHexLowerB (hexDigit d) = true := by decide

theorem byteToHex_all {b : Nat} (hb : b < 256) :
    ∀ c ∈ byteToHex b, isHexLowerB c = true := by
  intro c hc
  rcases List.mem_cons.1 hc with rfl | hc
  · exact hexDigit_hex _ (by omega)
  · rw [List.mem_singleton] at hc
    subst hc
    exact hexDigit_hex _ (Nat.mod_lt _ (by omega))

theorem bytesToHex_all {bs : List Nat} (hb : ∀ b ∈ bs, b < 256) :
    ∀ c ∈ bytesToHex bs, isHexLowerB c = true := by
  intro c hc
  unfold bytesToHex at hc
  obtain ⟨l, hl, hcl⟩ := List.mem_flatten.1 hc
  obtain ⟨b, hbmem, rfl⟩ := List.mem_map.1 hl
  exact byteToHex_all (hb b hbmem) c hcl

theorem bytesToHex_length (bs : List Nat) :
    (bytesToHex bs).length = 2 * bs.length := by
  induction bs with
  | nil => rfl
  | cons b bs ih =>
    show (byteToHex b ++ bytesToHex bs).length = 2 * (bs.length + 1)
    rw [List.length_append, ih]
    simp [byteToHex]
    omega

theorem takeWhile_append_all {p : Char → Bool} {a : Str} (b : Str) {d : Char}
    (ha : ∀ c ∈ a, p c = true) (hd : p d = false) :
    (a ++ d :: b).takeWhile p = a ∧ (a ++ d :: b).dropWhile p = d :: b := by
  induction a with
  | nil => simp [List.takeWhile_cons, List.dropWhile_cons, hd]
  | cons x a ih =>
    have hx := ha x (List.mem_cons_self _ _)
    obtain ⟨h1, h2⟩ := ih (fun c hc => ha c (List.mem_cons_of_mem _ hc))
    simp [List.takeWhile_cons, List.dropWhile_cons, hx, h1, h2]

/-- Reduction of the `WORKSPACE_PATTERN` matcher on the literal `ws_`
prefix. -/
theorem matchesWorkspacePattern_cons (rest : Str) :
    matchesWorkspacePattern ('w' :: 's' :: '_' :: rest) =
      (!(rest.takeWhile isDigitB).isEmpty &&
        (match rest.dropWhile isDigitB with
         | '_' :: hs => !hs.isEmpty && hs.all isHexLowerB
         | _ => false)) := rfl

/-- C10: every directory name `createWorkspace` produces —
`ws_<decimal Date.now()>_<hex of 8 random bytes>` — matches
`WORKSPACE_PATTERN`, its hex suffix being exactly 16 lowercase hex
characters; and conversely every string the pattern accepts decomposes as
`ws_` + nonempty digits + `_` + nonempty `[a-f0-9]` characters, so the
startup sweep's filter rejects any name not of this form. -/
theorem claim10_workspace_name_pattern (t : Nat) (bytes : List Nat)
    (hlen : bytes.length = 8) (hb : ∀ b ∈ bytes, b < 256) :
    matchesWorkspacePattern (workspaceName t bytes) = true ∧
      (bytesToHex bytes).length = 16 ∧
      (∀ s : Str, matchesWorkspacePattern s = true →
        ∃ ds hs, s = 'w' :: 's' :: '_' :: (ds ++ '_' :: hs) ∧
          ds ≠ [] ∧ (∀ c ∈ ds, isDigitB c = true) ∧
          hs ≠ [] ∧ (∀ c ∈ hs, isHexLowerB c = true)) := by
  refine ⟨?_, ?_, ?_⟩
  · show matchesWorkspacePattern
      ("ws_".data ++ natToDecimal t ++ "_".data ++ bytesToHex bytes) = true
    rw [show "ws_".data = ['w', 's', '_'] from rfl,
      show "_".data = ['_'] from rfl, List.append_assoc, List.append_assoc]
    show matchesWorkspacePattern
      ('w' :: 's' :: '_' :: (natToDecimal t ++ '_' :: bytesToHex bytes)) = true
    obtain ⟨htw, hdw⟩ := takeWhile_append_all (p := isDigitB) (bytesToHex bytes)
      (natToDecimal_all_digits t) (show isDigitB '_' = false by decide)
    rw [matchesWorkspacePattern_cons, htw, hdw]
    have hne : (natToDecimal t).isEmpty = false := by
      cases h : natToDecimal t with
      | nil => exact absurd h (natToDecimal_ne_nil t)
      | cons c l => rfl
    have hhexne : (bytesToHex bytes).isEmpty = false := by
      cases h : bytesToHex bytes with
      | nil =>
        have := bytesToHex_length bytes
        rw [h, hlen] at this
        simp at this
      | cons c l => rfl
    have hall : (bytesToHex bytes).all isHexLowerB = true :=
      List.all_eq_true.2 (bytesToHex_all hb)
    simp [hne, hhexne, hall]
  · rw [bytesToHex_length, hlen]
  · intro s hm
    unfold matchesWorkspacePattern at hm
    split at hm
    · rename_i rest
      rw [Bool.and_eq_true] at hm
      obtain ⟨h1, h2⟩ := hm
      split at h2
      · rename_i hs heq2
        refine ⟨rest.takeWhile isDigitB, hs, ?_, ?_, ?_, ?_, ?_⟩
        · rw [← heq2, List.takeWhile_append_dropWhile]
        · intro hnil
          rw [hnil] at h1
          simp at h1
        · exact fun c hc => List.mem_takeWhile_imp hc
        · rw [Bool.and_eq_true] at h2
          intro hnil
          rw [hnil] at h2
          simp at h2
        · rw [Bool.and_eq_true] at h2
          exact fun c hc => List.all_eq_true.1 h2.2 c hc
      · simp at h2
    · simp at hm

/-- Witness for C10 at a concrete timestamp and 8 concrete random bytes. -/
theorem claim10_witness :
    matchesWorkspacePattern
      (workspaceName 1730000000000 [222, 173, 190, 239, 0, 17, 34, 51]) = true ∧
      (bytesToHex [222, 173, 190, 239, 0, 17, 34, 51]).length = 16 :=
  ⟨(claim10_workspace_name_pattern 1730000000000
      [222, 173, 190, 239, 0, 17, 34, 51] rfl (by decide)).1,
   (claim10_workspace_name_pattern 1730000000000
      [222, 173, 190, 239, 0, 17, 34, 51] rfl (by decide)).2.1⟩

end CpJudge
